import Mathlib

/-!
# Verification of the OpenSearch (GoodFirstFinder) core subsystem

A shallow embedding, in Lean 4, of the core subsystem of the repository:

* `backend/src/services/healthScore.js` — `computeHealthScore`, `summarizeActivity`
* `backend/src/services/githubService.js` — `withRetry`
* `backend/src/jobs/jobWorker.js` — `processNextJob`, `handleRefreshRepo`
* `backend/src/jobs/cleanupRepos.js` — `cleanupStaleRepositories`
* `backend/src/routes/repos.js` — the enqueue-if-absent refresh endpoint

Modelling conventions:

* timestamps are integers counting milliseconds since the epoch (JavaScript
  `Date.getTime()`); a nullable timestamp is an `Option ℤ`;
* JavaScript numeric arithmetic is idealised as exact arithmetic over `ℚ`/`ℝ`
  (`Math.log10` becomes `Real.logb 10`, `Math.round` becomes `round`, which
  like `Math.round` sends half-integers towards `+∞`);
* database rows are Lean structures, tables are lists of rows, and a Prisma
  `$transaction` is a single atomic transition from one store value to the
  next;
* a fallible step returns `Except String α`; external fetches appear as
  `Except`-valued parameters so that every possible fetch outcome is
  quantified over.
-/

namespace OpenSearch

/-- Milliseconds in one day (`1000 * 60 * 60 * 24` in the JavaScript sources). -/
def msPerDay : ℤ := 1000 * 60 * 60 * 24

/-! ## Health Score Calculator (`backend/src/services/healthScore.js`) -/

/-- The fields of the `repo` argument read by `computeHealthScore`:
`repo.stars`, `repo.openIssues` (both defaulted with `?? 0` when missing) and
the nullable `repo.lastCommitAt`. -/
structure RepoFields where
  stars : Option ℕ
  openIssues : Option ℕ
  lastCommitAt : Option ℤ
deriving DecidableEq, Repr

/-- The object returned by `summarizeActivity`. -/
structure ActivitySummary where
  windowStart : ℤ
  windowEnd : ℤ
  prsOpened : ℕ
  prsMerged : ℕ
  issuesOpened : ℕ
  issuesComment : ℕ
  meanMergeDays : ℚ
deriving DecidableEq, Repr

/-- Recency sub-score: `Math.max(0, 1 - (now - lastCommitAt) / (180 days))`,
`0` for a null timestamp. -/
noncomputable def recencyScore (now : ℤ) (lastCommitAt : Option ℤ) : ℝ :=
  match lastCommitAt with
  | none => 0
  | some t => max 0 (1 - ((now - t : ℤ) : ℝ) / (1000 * 60 * 60 * 24 * 180))

/-- Stars sub-score: `Math.min(Math.log10(stars + 1) / 4, 1)`. -/
noncomputable def starsScore (stars : ℕ) : ℝ :=
  min (Real.logb 10 ((stars : ℝ) + 1) / 4) 1

/-- Open-issues sub-score: `Math.min(openIssues / 100, 1)`. -/
def openIssuesScore (openIssues : ℕ) : ℚ :=
  min ((openIssues : ℚ) / 100) 1

/-- PRs-opened sub-score: `Math.min(prsOpened / 20, 1)`. -/
def prsOpenedScore (prsOpened : ℕ) : ℚ :=
  min ((prsOpened : ℚ) / 20) 1

/-- PRs-merged sub-score: `Math.min(prsMerged / 10, 1)`. -/
def prsMergedScore (prsMerged : ℕ) : ℚ :=
  min ((prsMerged : ℚ) / 10) 1

/-- Issues-opened sub-score: `Math.min(issuesOpened / 10, 1)`. -/
def issuesOpenedScore (issuesOpened : ℕ) : ℚ :=
  min ((issuesOpened : ℚ) / 10) 1

/-- `computeHealthScore(repo, activitySummary)` from `healthScore.js`:
`if (!repo) return 0`, then the weighted sum of the six sub-scores, rounded
(`Math.round`) and capped above by `Math.min(100, score)`.  `now` is the
ambient `Date.now()`. -/
noncomputable def computeHealthScore (repo : Option RepoFields)
    (activitySummary : Option ActivitySummary) (now : ℤ) : ℤ :=
  match repo with
  | none => 0
  | some r =>
    let score : ℤ := round (
      30 * recencyScore now r.lastCommitAt
      + 10 * starsScore (r.stars.getD 0)
      + 10 * ((openIssuesScore (r.openIssues.getD 0) : ℚ) : ℝ)
      + 25 * ((prsOpenedScore ((activitySummary.map (·.prsOpened)).getD 0) : ℚ) : ℝ)
      + 15 * ((prsMergedScore ((activitySummary.map (·.prsMerged)).getD 0) : ℚ) : ℝ)
      + 10 * ((issuesOpenedScore ((activitySummary.map (·.issuesOpened)).getD 0) : ℚ) : ℝ))
    min 100 score

/-! ### Bounds on the sub-scores -/

theorem recencyScore_nonneg (now : ℤ) (t : Option ℤ) : 0 ≤ recencyScore now t := by
  cases t with
  | none => simp [recencyScore]
  | some t => exact le_max_left 0 _

theorem starsScore_nonneg (s : ℕ) : 0 ≤ starsScore s := by
  have h : (0:ℝ) ≤ Real.logb 10 ((s : ℝ) + 1) :=
    Real.logb_nonneg (by norm_num) (by simp [Nat.cast_nonneg])
  exact le_min (by linarith) zero_le_one

theorem starsScore_le_one (s : ℕ) : starsScore s ≤ 1 := min_le_right _ _

theorem openIssuesScore_bounds (n : ℕ) : 0 ≤ openIssuesScore n ∧ openIssuesScore n ≤ 1 :=
  ⟨le_min (by positivity) zero_le_one, min_le_right _ _⟩

theorem prsOpenedScore_bounds (n : ℕ) : 0 ≤ prsOpenedScore n ∧ prsOpenedScore n ≤ 1 :=
  ⟨le_min (by positivity) zero_le_one, min_le_right _ _⟩

theorem prsMergedScore_bounds (n : ℕ) : 0 ≤ prsMergedScore n ∧ prsMergedScore n ≤ 1 :=
  ⟨le_min (by positivity) zero_le_one, min_le_right _ _⟩

theorem issuesOpenedScore_bounds (n : ℕ) : 0 ≤ issuesOpenedScore n ∧ issuesOpenedScore n ≤ 1 :=
  ⟨le_min (by positivity) zero_le_one, min_le_right _ _⟩

/-- C3: for every input — any repo object or `null`, any activity summary or
`null`, any current time — `computeHealthScore` returns an integer (its
codomain is `ℤ`) lying in `[0, 100]`; a `null` repo yields `0`; and missing
numeric fields (`stars`, `openIssues`) behave exactly as the value `0`.  The
embedding is a total function, so no exception is possible. -/
theorem computeHealthScore_spec (repo : Option RepoFields)
    (activitySummary : Option ActivitySummary) (now : ℤ) :
    (0 ≤ computeHealthScore repo activitySummary now
      ∧ computeHealthScore repo activitySummary now ≤ 100)
    ∧ computeHealthScore none activitySummary now = 0
    ∧ (∀ lca : Option ℤ,
        computeHealthScore (some ⟨none, none, lca⟩) activitySummary now
          = computeHealthScore (some ⟨some 0, some 0, lca⟩) activitySummary now) := by
  refine ⟨?_, rfl, fun lca => rfl⟩
  cases repo with
  | none => simp [computeHealthScore]
  | some r =>
    have h1 := recencyScore_nonneg now r.lastCommitAt
    have h2 := starsScore_nonneg (r.stars.getD 0)
    have h3 := openIssuesScore_bounds (r.openIssues.getD 0)
    have h4 := prsOpenedScore_bounds ((activitySummary.map (·.prsOpened)).getD 0)
    have h5 := prsMergedScore_bounds ((activitySummary.map (·.prsMerged)).getD 0)
    have h6 := issuesOpenedScore_bounds ((activitySummary.map (·.issuesOpened)).getD 0)
    have h3' : (0:ℝ) ≤ ((openIssuesScore (r.openIssues.getD 0) : ℚ) : ℝ) := by
      exact_mod_cast h3.1
    have h4' : (0:ℝ) ≤ ((prsOpenedScore ((activitySummary.map (·.prsOpened)).getD 0) : ℚ) : ℝ) := by
      exact_mod_cast h4.1
    have h5' : (0:ℝ) ≤ ((prsMergedScore ((activitySummary.map (·.prsMerged)).getD 0) : ℚ) : ℝ) := by
      exact_mod_cast h5.1
    have h6' : (0:ℝ) ≤ ((issuesOpenedScore ((activitySummary.map (·.issuesOpened)).getD 0) : ℚ) : ℝ) := by
      exact_mod_cast h6.1
    constructor
    · show (0:ℤ) ≤ min 100 _
      refine le_min (by norm_num) ?_
      have hsum : (0:ℝ) ≤ 30 * recencyScore now r.lastCommitAt
          + 10 * starsScore (r.stars.getD 0)
          + 10 * ((openIssuesScore (r.openIssues.getD 0) : ℚ) : ℝ)
          + 25 * ((prsOpenedScore ((activitySummary.map (·.prsOpened)).getD 0) : ℚ) : ℝ)
          + 15 * ((prsMergedScore ((activitySummary.map (·.prsMerged)).getD 0) : ℚ) : ℝ)
          + 10 * ((issuesOpenedScore ((activitySummary.map (·.issuesOpened)).getD 0) : ℚ) : ℝ) := by
        linarith
      calc (0:ℤ) = round (0:ℝ) := by simp
      _ ≤ _ := by
        rw [round_eq, round_eq]
        exact Int.floor_le_floor (by linarith)
    · exact min_le_left _ _

/-! ### C4: the no-activity bound -/

theorem openIssuesScore_zero : openIssuesScore 0 = 0 := by norm_num [openIssuesScore]

theorem prsOpenedScore_zero : prsOpenedScore 0 = 0 := by norm_num [prsOpenedScore]

theorem prsMergedScore_zero : prsMergedScore 0 = 0 := by norm_num [prsMergedScore]

theorem issuesOpenedScore_zero : issuesOpenedScore 0 = 0 := by norm_num [issuesOpenedScore]

/-- C4 (counterexample): the recency term of `computeHealthScore` is clamped
below by `Math.max(0,·)` but not clamped above, so a repo whose
`lastCommitAt` lies in the future scores above 60 even with zero stars, zero
open issues and no activity summary: a commit stamped 400 days after `now`
yields `round(30 * (1 + 400/180)) = 97 > 60`. -/
theorem computeHealthScore_c4_counterexample :
    60 < computeHealthScore (some ⟨some 0, some 0, some (400 * msPerDay)⟩) none 0 := by
  have hstars : starsScore 0 = 0 := by
    have : ((0:ℕ) : ℝ) + 1 = 1 := by norm_num
    simp [starsScore, this, Real.logb_one]
  have hrec : recencyScore 0 (some (400 * msPerDay)) = 29 / 9 := by
    show max 0 (1 - ((0 - 400 * msPerDay : ℤ) : ℝ) / (1000 * 60 * 60 * 24 * 180)) = 29 / 9
    rw [max_eq_right (by push_cast [msPerDay]; norm_num)]
    push_cast [msPerDay]
    norm_num
  have hround : round ((290:ℝ) / 3) = 97 := by
    rw [round_eq, show (290:ℝ)/3 + 1/2 = 583/6 by norm_num, Int.floor_eq_iff]
    norm_num
  show 60 < min 100 (round _)
  simp only [Option.map_none', Option.getD_none, Option.getD_some]
  rw [hrec, hstars, openIssuesScore_zero, prsOpenedScore_zero, prsMergedScore_zero,
    issuesOpenedScore_zero]
  rw [show (30:ℝ) * (29/9) + 10 * 0 + 10 * ((0:ℚ):ℝ) + 25 * ((0:ℚ):ℝ) + 15 * ((0:ℚ):ℝ)
      + 10 * ((0:ℚ):ℝ) = 290/3 by push_cast; ring]
  rw [hround]
  norm_num

/-- C4 (amended): for every repo input whose last-commit timestamp is not in
the future of the current instant, `computeHealthScore(repo, null)` never
exceeds 60; concretely, a repo with 10,000,000 stars, 1,000 open issues and a
last-commit timestamp equal to the current instant, with no activity summary,
scores exactly 50. -/
theorem computeHealthScore_no_activity_bound (r : RepoFields) (now : ℤ)
    (hpast : ∀ t, r.lastCommitAt = some t → t ≤ now) :
    computeHealthScore (some r) none now ≤ 60
    ∧ computeHealthScore (some ⟨some 10000000, some 1000, some now⟩) none now = 50 := by
  have hcast : ∀ q : ℚ, q ≤ 1 → ((q : ℚ) : ℝ) ≤ 1 := fun q hq => by exact_mod_cast hq
  constructor
  · have hrec1 : recencyScore now r.lastCommitAt ≤ 1 := by
      cases h : r.lastCommitAt with
      | none => simp [recencyScore]
      | some t =>
        have ht : ((now - t : ℤ) : ℝ) ≥ 0 := by
          have := hpast t h
          exact_mod_cast sub_nonneg.mpr this
        show max 0 (1 - ((now - t : ℤ) : ℝ) / (1000 * 60 * 60 * 24 * 180)) ≤ 1
        refine max_le (by norm_num) ?_
        have : (0:ℝ) ≤ ((now - t : ℤ) : ℝ) / (1000 * 60 * 60 * 24 * 180) :=
          div_nonneg ht (by norm_num)
        linarith
    have hrec0 := recencyScore_nonneg now r.lastCommitAt
    have hs1 := starsScore_le_one (r.stars.getD 0)
    have hs0 := starsScore_nonneg (r.stars.getD 0)
    have hoi := openIssuesScore_bounds (r.openIssues.getD 0)
    have hoi' := hcast _ hoi.2
    show min 100 (round _) ≤ 60
    simp only [Option.map_none', Option.getD_none]
    rw [prsOpenedScore_zero, prsMergedScore_zero, issuesOpenedScore_zero]
    have hsum : 30 * recencyScore now r.lastCommitAt
        + 10 * starsScore (r.stars.getD 0)
        + 10 * ((openIssuesScore (r.openIssues.getD 0) : ℚ) : ℝ)
        + 25 * ((0:ℚ):ℝ) + 15 * ((0:ℚ):ℝ) + 10 * ((0:ℚ):ℝ) ≤ 50 := by
      push_cast
      linarith
    have hround : round (30 * recencyScore now r.lastCommitAt
        + 10 * starsScore (r.stars.getD 0)
        + 10 * ((openIssuesScore (r.openIssues.getD 0) : ℚ) : ℝ)
        + 25 * ((0:ℚ):ℝ) + 15 * ((0:ℚ):ℝ) + 10 * ((0:ℚ):ℝ)) ≤ (50:ℤ) := by
      calc round (30 * recencyScore now r.lastCommitAt
          + 10 * starsScore (r.stars.getD 0)
          + 10 * ((openIssuesScore (r.openIssues.getD 0) : ℚ) : ℝ)
          + 25 * ((0:ℚ):ℝ) + 15 * ((0:ℚ):ℝ) + 10 * ((0:ℚ):ℝ)) ≤ round ((50:ℝ)) := by
            rw [round_eq, round_eq]
            exact Int.floor_le_floor (by linarith)
        _ = 50 := by norm_num
    exact le_trans (min_le_right _ _) (le_trans hround (by norm_num))
  · have hrec : recencyScore now (some now) = 1 := by
      show max 0 (1 - ((now - now : ℤ) : ℝ) / (1000 * 60 * 60 * 24 * 180)) = 1
      simp
    have hstars : starsScore 10000000 = 1 := by
      have hlog : (4:ℝ) ≤ Real.logb 10 (((10000000:ℕ) : ℝ) + 1) := by
        rw [Real.le_logb_iff_rpow_le (by norm_num) (by norm_num)]
        rw [show (4:ℝ) = ((4:ℕ):ℝ) by norm_num, Real.rpow_natCast]
        norm_num
      have : (1:ℝ) ≤ Real.logb 10 (((10000000:ℕ) : ℝ) + 1) / 4 := by
        generalize hg : Real.logb 10 (((10000000:ℕ) : ℝ) + 1) = L at hlog ⊢
        linarith
      exact min_eq_right this
    have hoi : openIssuesScore 1000 = 1 := by
      norm_num [openIssuesScore]
    show min 100 (round _) = 50
    simp only [Option.map_none', Option.getD_none, Option.getD_some]
    rw [hrec, hstars, hoi, prsOpenedScore_zero, prsMergedScore_zero, issuesOpenedScore_zero]
    rw [show (30:ℝ) * 1 + 10 * 1 + 10 * ((1:ℚ):ℝ) + 25 * ((0:ℚ):ℝ) + 15 * ((0:ℚ):ℝ)
        + 10 * ((0:ℚ):ℝ) = 50 by push_cast; ring]
    norm_num

/-- Witness for `computeHealthScore_no_activity_bound`, at a repo whose
`lastCommitAt` is null and at `now = 0`. -/
theorem computeHealthScore_no_activity_bound_witness :
    computeHealthScore (some ⟨some 0, some 0, none⟩) none 0 ≤ 60
    ∧ computeHealthScore (some ⟨some 10000000, some 1000, some 0⟩) none 0 = 50 :=
  computeHealthScore_no_activity_bound ⟨some 0, some 0, none⟩ 0 (fun _ ht => nomatch ht)

/-! ## Activity Summarizer (`summarizeActivity` in `healthScore.js`) -/

/-- A pull-request record as read by `summarizeActivity`: the nullable
`created_at` and `merged_at` timestamps, in milliseconds. -/
structure Pull where
  created_at : Option ℤ
  merged_at : Option ℤ
deriving DecidableEq, Repr

/-- An issue record as read by `summarizeActivity`: whether it carries the
`pull_request` marker, and its nullable `comments` count. -/
structure Issue where
  pull_request : Bool
  comments : Option ℕ
deriving DecidableEq, Repr

/-- The `mergeDurations` pipeline of `summarizeActivity`: keep the pull
requests having both `merged_at` and `created_at`, then map each to
`(merged - created) / (1000*60*60*24)` days. -/
def mergeDurations (pulls : List Pull) : List ℚ :=
  (pulls.filter (fun p => p.merged_at.isSome && p.created_at.isSome)).map
    (fun p => ((p.merged_at.getD 0 - p.created_at.getD 0 : ℤ) : ℚ) / (msPerDay : ℚ))

/-- `summarizeActivity({pulls, issues})` from `healthScore.js`; `now` is the
ambient `new Date()` fixing the `[now - 30d, now]` window boundaries. -/
def summarizeActivity (pulls : List Pull) (issues : List Issue) (now : ℤ) : ActivitySummary :=
  let windowEnd := now
  let windowStart := windowEnd - 1000 * 60 * 60 * 24 * 30
  let prsOpened := pulls.length
  let prsMerged := (pulls.filter (fun p => p.merged_at.isSome)).length
  let issuesOpened := (issues.filter (fun i => !i.pull_request)).length
  let issuesComment := issues.foldl (fun total i => total + i.comments.getD 0) 0
  let ds := mergeDurations pulls
  let meanMergeDays : ℚ := if 0 < ds.length then ds.foldl (· + ·) 0 / (ds.length : ℚ) else 0
  ⟨windowStart, windowEnd, prsOpened, prsMerged, issuesOpened, issuesComment, meanMergeDays⟩

/-- Stated from the spec's words, independently of the source's
filter/map/reduce pipeline: the arithmetic mean, in days, of
(merge time − creation time) over exactly those pull requests having both a
created and a merged timestamp; `0` when no such pull request exists. -/
def specMeanMergeDays (pulls : List Pull) : ℚ :=
  let ds := pulls.filterMap (fun p =>
    match p.created_at, p.merged_at with
    | some c, some m => some (((m - c : ℤ) : ℚ) / (msPerDay : ℚ))
    | _, _ => none)
  if ds = [] then 0 else ds.sum / (ds.length : ℚ)

theorem mergeDurations_eq_filterMap (pulls : List Pull) :
    mergeDurations pulls = pulls.filterMap (fun p =>
      match p.created_at, p.merged_at with
      | some c, some m => some (((m - c : ℤ) : ℚ) / (msPerDay : ℚ))
      | _, _ => none) := by
  induction pulls with
  | nil => rfl
  | cons p rest ih =>
    rw [mergeDurations] at ih ⊢
    rw [List.filter_cons, List.filterMap_cons]
    rcases hc : p.created_at with _ | c <;> rcases hm : p.merged_at with _ | m <;>
      simp only [hc, hm, Option.isSome_none, Option.isSome_some, Bool.and_self,
        Bool.false_and, Bool.and_false, Bool.true_and, Bool.and_true,
        Bool.false_eq_true, if_false, if_true, Option.getD_some, List.map_cons] <;>
      rw [ih]

theorem foldl_add_eq_sum (l : List ℚ) (a : ℚ) : l.foldl (· + ·) a = a + l.sum := by
  induction l generalizing a with
  | nil => simp
  | cons x xs ih => rw [List.foldl_cons, ih, List.sum_cons]; ring

/-- C9: for every list of pull-request records (and any issue list and any
current time), `meanMergeDays` equals the arithmetic mean, in days, of
(merge time − creation time) over exactly those pull requests having both a
created and a merged timestamp, and equals `0` — not an error, not `NaN`,
which the exact `ℚ` arithmetic of the model cannot even produce — when no
pull request has both timestamps. -/
theorem summarizeActivity_meanMergeDays (pulls : List Pull) (issues : List Issue) (now : ℤ) :
    (summarizeActivity pulls issues now).meanMergeDays = specMeanMergeDays pulls
    ∧ ((∀ p ∈ pulls, ¬(p.created_at.isSome ∧ p.merged_at.isSome)) →
        (summarizeActivity pulls issues now).meanMergeDays = 0) := by
  have hmain : (summarizeActivity pulls issues now).meanMergeDays = specMeanMergeDays pulls := by
    show (if 0 < (mergeDurations pulls).length
        then (mergeDurations pulls).foldl (· + ·) 0 / ((mergeDurations pulls).length : ℚ)
        else 0) = specMeanMergeDays pulls
    rw [specMeanMergeDays, ← mergeDurations_eq_filterMap]
    rcases h : mergeDurations pulls with _ | ⟨d, ds⟩
    · simp
    · simp only [List.length_cons, if_pos (Nat.succ_pos _), if_neg (List.cons_ne_nil d ds)]
      rw [foldl_add_eq_sum, zero_add]
  refine ⟨hmain, fun hnone => ?_⟩
  have hempty : mergeDurations pulls = [] := by
    rw [mergeDurations]
    have : pulls.filter (fun p => p.merged_at.isSome && p.created_at.isSome) = [] := by
      rw [List.filter_eq_nil_iff]
      intro p hp
      have := hnone p hp
      rcases hc : p.created_at with _ | c <;> rcases hm : p.merged_at with _ | m <;>
        simp [hc, hm] at this ⊢
    rw [this, List.map_nil]
  show (if 0 < (mergeDurations pulls).length
      then (mergeDurations pulls).foldl (· + ·) 0 / ((mergeDurations pulls).length : ℚ)
      else 0) = 0
  rw [hempty]
  simp

/-- Witness for `summarizeActivity_meanMergeDays`: a single pull request with
a merge timestamp but no creation timestamp contributes nothing, and the mean
is 0. -/
theorem summarizeActivity_meanMergeDays_witness :
    (summarizeActivity [⟨none, some 5⟩] [] 0).meanMergeDays = 0 :=
  (summarizeActivity_meanMergeDays [⟨none, some 5⟩] [] 0).2 (by decide)

/-! ## Repository Store and Cleanup Sweeper (`backend/src/jobs/cleanupRepos.js`) -/

/-- A `Repository` row (Prisma model `Repository`), with the fields the core
reads and writes.  Timestamps are epoch milliseconds. -/
structure RepositoryRecord where
  id : ℕ
  fullName : String
  description : Option String
  stars : ℕ
  forks : ℕ
  openIssues : ℕ
  defaultBranch : String
  lastCommitAt : Option ℤ
  hasGoodFirstIssues : Bool
  etag : Option String
  lastFetchedAt : Option ℤ
  healthScore : ℤ
  healthRefreshedAt : Option ℤ
deriving DecidableEq, Repr

/-- The `deleteMany` predicate of `cleanupStaleRepositories`:
`lastFetchedAt < cutoffDate` OR `lastFetchedAt` is null. -/
def isStale (cutoffDate : ℤ) (r : RepositoryRecord) : Bool :=
  match r.lastFetchedAt with
  | some t => t < cutoffDate
  | none => true

/-- The observable result of one sweep: the surviving `Repository` table and
the reported `{ deleted }` count. -/
structure CleanupResult where
  repos : List RepositoryRecord
  deleted : ℕ
deriving DecidableEq, Repr

/-- `cleanupStaleRepositories()` from `cleanupRepos.js`:
`cutoffDate = now - REPO_TTL_MS`, then one bulk `deleteMany` of every row
satisfying `lastFetchedAt < cutoffDate OR lastFetchedAt = null`, returning
the number of rows deleted.  `now` is `Date.now()`, `ttlMs` the configured
`REPO_TTL_MS`. -/
def cleanupStaleRepositories (now ttlMs : ℤ) (repos : List RepositoryRecord) : CleanupResult :=
  let cutoffDate := now - ttlMs
  { repos := repos.filter (fun r => !(isStale cutoffDate r)),
    deleted := (repos.filter (fun r => isStale cutoffDate r)).length }

/-- A repository row whose fields other than `id` and `lastFetchedAt` are
fixed throwaway values, for concrete sweeps. -/
def mkRepoRow (id : ℕ) (lastFetchedAt : Option ℤ) : RepositoryRecord :=
  ⟨id, "octocat/hello", none, 0, 0, 0, "main", none, false, none, lastFetchedAt, 0, none⟩

theorem length_filter_partition {α : Type} (p q : α → Bool) (hpq : ∀ a, q a = !(p a))
    (l : List α) : (l.filter q).length + (l.filter p).length = l.length := by
  induction l with
  | nil => rfl
  | cons a t ih =>
    rw [List.filter_cons, List.filter_cons, hpq a]
    cases hpa : p a <;> simp only [Bool.not_true, Bool.not_false, if_true, if_false,
      Bool.false_eq_true, Bool.true_eq_false, List.length_cons] <;> omega

/-- C7: a sweep at time `now` with time-to-live `ttlMs` keeps exactly the
records whose `lastFetchedAt` is a non-null timestamp not strictly older than
`now - ttlMs` (so it deletes exactly those strictly older than the cutoff or
null), and reports as `deleted` the number of rows removed.  With a 7-day
TTL: a record fetched 6 days ago survives, one fetched 8 days ago does not,
and a never-fetched record (`lastFetchedAt = null`) is deleted by the first
sweep regardless of its other fields. -/
theorem cleanupStaleRepositories_spec (now ttlMs : ℤ) (repos : List RepositoryRecord) :
    (∀ r : RepositoryRecord,
      r ∈ (cleanupStaleRepositories now ttlMs repos).repos
        ↔ r ∈ repos ∧ ∃ t, r.lastFetchedAt = some t ∧ now - ttlMs ≤ t)
    ∧ (cleanupStaleRepositories now ttlMs repos).deleted
        = repos.length - (cleanupStaleRepositories now ttlMs repos).repos.length
    ∧ (cleanupStaleRepositories now (7 * msPerDay)
        [mkRepoRow 1 (some (now - 6 * msPerDay))]).repos
        = [mkRepoRow 1 (some (now - 6 * msPerDay))]
    ∧ cleanupStaleRepositories now (7 * msPerDay)
        [mkRepoRow 1 (some (now - 8 * msPerDay))] = ⟨[], 1⟩
    ∧ cleanupStaleRepositories now (7 * msPerDay) [mkRepoRow 1 none] = ⟨[], 1⟩ := by
  refine ⟨?_, ?_, ?_, ?_, ?_⟩
  · intro r
    show r ∈ repos.filter _ ↔ _
    rw [List.mem_filter]
    constructor
    · rintro ⟨hmem, hkeep⟩
      refine ⟨hmem, ?_⟩
      rcases hl : r.lastFetchedAt with _ | t
      · rw [isStale] at hkeep
        simp [hl] at hkeep
      · refine ⟨t, rfl, ?_⟩
        rw [isStale] at hkeep
        simp only [hl, Bool.not_eq_true'] at hkeep
        have := of_decide_eq_false hkeep
        omega
    · rintro ⟨hmem, t, hl, ht⟩
      refine ⟨hmem, ?_⟩
      rw [isStale]
      simp only [hl, Bool.not_eq_true']
      exact decide_eq_false (by omega)
  · have h := length_filter_partition (fun r => isStale (now - ttlMs) r)
      (fun r => !(isStale (now - ttlMs) r)) (fun _ => rfl) repos
    simp only [cleanupStaleRepositories]
    omega
  · have h6 : isStale (now - 7 * msPerDay) (mkRepoRow 1 (some (now - 6 * msPerDay))) = false := by
      rw [isStale]
      show decide (now - 6 * msPerDay < now - 7 * msPerDay) = false
      rw [decide_eq_false_iff_not, msPerDay]
      omega
    show List.filter _ _ = _
    rw [List.filter_cons, h6]
    rfl
  · have h8 : isStale (now - 7 * msPerDay) (mkRepoRow 1 (some (now - 8 * msPerDay))) = true := by
      rw [isStale]
      show decide (now - 8 * msPerDay < now - 7 * msPerDay) = true
      rw [decide_eq_true_eq, msPerDay]
      omega
    rw [cleanupStaleRepositories]
    simp only [List.filter_cons, h8, Bool.not_true, List.filter_nil, if_false, if_true,
      List.length_cons, List.length_nil, Bool.false_eq_true]
  · have hn : isStale (now - 7 * msPerDay) (mkRepoRow 1 none) = true := rfl
    rw [cleanupStaleRepositories]
    simp only [List.filter_cons, hn, Bool.not_true, List.filter_nil, if_false, if_true,
      List.length_cons, List.length_nil, Bool.false_eq_true]

/-- C8: running `cleanupStaleRepositories` twice in immediate succession with
no intervening writes is idempotent: the second sweep deletes nothing
(`deleted = 0`) and leaves the table exactly as the first sweep left it. -/
theorem cleanupStaleRepositories_idempotent (now ttlMs : ℤ) (repos : List RepositoryRecord) :
    (cleanupStaleRepositories now ttlMs
        (cleanupStaleRepositories now ttlMs repos).repos).deleted = 0
    ∧ (cleanupStaleRepositories now ttlMs
        (cleanupStaleRepositories now ttlMs repos).repos).repos
      = (cleanupStaleRepositories now ttlMs repos).repos := by
  constructor
  · show (List.filter _ (List.filter _ repos)).length = 0
    rw [List.filter_filter]
    rw [show (fun a => isStale (now - ttlMs) a && !isStale (now - ttlMs) a)
        = (fun _ : RepositoryRecord => false)
      from funext (fun a => by cases isStale (now - ttlMs) a <;> rfl)]
    simp
  · show List.filter _ (List.filter _ repos) = List.filter _ repos
    rw [List.filter_filter]
    congr 1
    exact funext (fun a => by cases isStale (now - ttlMs) a <;> rfl)

/-! ## Refresh Job Queue and Processor (`backend/src/jobs/jobWorker.js`) -/

/-- Status values of the `FetchJob` model. -/
inductive JobStatus
  | queued
  | processing
  | completed
  | failed
deriving DecidableEq, Repr

/-- A `FetchJob` row: `kind`, the `repoId` of the JSON payload, `status`,
`attempts`, nullable `lastError`, `createdAt`. -/
structure Job where
  id : ℕ
  kind : String
  payloadRepoId : Option ℕ
  status : JobStatus
  attempts : ℕ
  lastError : Option String
  createdAt : ℤ
deriving DecidableEq, Repr

/-- `prisma.fetchJob.findFirst({ where: { status: "queued" }, orderBy:
{ createdAt: "asc" } })`: the earliest-created queued job, taking the first
in table order among those of minimal `createdAt`. -/
def selectNextQueued (jobs : List Job) : Option Job :=
  match jobs with
  | [] => none
  | j :: rest =>
    match selectNextQueued rest with
    | none => if j.status = .queued then some j else none
    | some b => if j.status = .queued ∧ j.createdAt ≤ b.createdAt then some j else some b

/-- The first `fetchJob.update` of `processNextJob`: claim the job — status
`processing`, `attempts` incremented by one, `lastError` cleared to null. -/
def claimJob (j : Job) : Job :=
  { j with status := .processing, attempts := j.attempts + 1, lastError := none }

/-- The `try/catch` body of `processNextJob` acting on the claimed row:
dispatch on `job.kind` (only `"refreshRepo"` has a handler; any other kind
only logs a warning), then mark the job `completed`; if the handler threw,
set status to `failed` when `job.attempts + 1 >= 3` (the pre-claim attempts
value plus one, exactly as the catch block computes it) and back to `queued`
otherwise, storing `error.message` into `lastError`.  The outcome of
`handleRefreshRepo` is abstracted as an `Except String Unit`. -/
def runClaimedJob (job : Job) (handler : Except String Unit) : Job :=
  let claimed := claimJob job
  match (if job.kind = "refreshRepo" then handler else .ok ()) with
  | .ok _ => { claimed with status := .completed }
  | .error msg =>
    { claimed with
        status := if job.attempts + 1 ≥ 3 then .failed else .queued,
        lastError := some msg }

/-- One `processNextJob()` cycle over the job table: pick the oldest queued
job, run the claim/dispatch/complete-or-retry sequence on that row, leave
every other row unchanged; with no queued job the table is untouched.
`handler` gives the outcome `handleRefreshRepo` would have for the claimed
job. -/
def processNextJob (handler : Job → Except String Unit) (jobs : List Job) : List Job :=
  match selectNextQueued jobs with
  | none => jobs
  | some j => jobs.map (fun x => if x.id = j.id then runClaimedJob j (handler j) else x)

theorem selectNextQueued_none (jobs : List Job) (h : selectNextQueued jobs = none) :
    ∀ k ∈ jobs, k.status ≠ .queued := by
  induction jobs with
  | nil => intro k hk; cases hk
  | cons a rest ih =>
    intro k hk
    rw [selectNextQueued] at h
    rw [List.mem_cons] at hk
    rcases hr : selectNextQueued rest with _ | b
    · simp only [hr] at h
      by_cases ha : a.status = .queued
      · rw [if_pos ha] at h
        exact absurd h (by simp)
      · rcases hk with rfl | hk
        · exact ha
        · exact ih hr k hk
    · simp only [hr] at h
      by_cases hc : a.status = .queued ∧ a.createdAt ≤ b.createdAt
      · rw [if_pos hc] at h
        exact absurd h (by simp)
      · rw [if_neg hc] at h
        exact absurd h (by simp)

theorem selectNextQueued_sound (jobs : List Job) :
    ∀ j : Job, selectNextQueued jobs = some j →
      j ∈ jobs ∧ j.status = .queued
        ∧ ∀ k ∈ jobs, k.status = .queued → j.createdAt ≤ k.createdAt := by
  induction jobs with
  | nil => intro j h; cases h
  | cons a rest ih =>
    intro j h
    rw [selectNextQueued] at h
    rcases hr : selectNextQueued rest with _ | b
    · simp only [hr] at h
      have hnone := selectNextQueued_none rest hr
      by_cases ha : a.status = .queued
      · rw [if_pos ha] at h
        cases h
        refine ⟨List.mem_cons_self a rest, ha, ?_⟩
        intro k hk hkq
        rw [List.mem_cons] at hk
        rcases hk with rfl | hk
        · exact le_refl _
        · exact absurd hkq (hnone k hk)
      · rw [if_neg ha] at h
        exact absurd h (by simp)
    · simp only [hr] at h
      obtain ⟨hbmem, hbq, hbold⟩ := ih b hr
      by_cases hc : a.status = .queued ∧ a.createdAt ≤ b.createdAt
      · rw [if_pos hc] at h
        cases h
        refine ⟨List.mem_cons_self a rest, hc.1, ?_⟩
        intro k hk hkq
        rw [List.mem_cons] at hk
        rcases hk with rfl | hk
        · exact le_refl _
        · exact le_trans hc.2 (hbold k hk hkq)
      · rw [if_neg hc] at h
        cases h
        refine ⟨List.mem_cons_of_mem a hbmem, hbq, ?_⟩
        intro k hk hkq
        rw [List.mem_cons] at hk
        rcases hk with rfl | hk
        · by_cases haq : k.status = .queued
          · have hlt : ¬ k.createdAt ≤ j.createdAt := fun hle => hc ⟨haq, hle⟩
            omega
          · exact absurd hkq haq
        · exact hbold k hk hkq

/-- C1: the refresh-job state machine of `processNextJob`.  For the claimed
job — which is queued and has the oldest `createdAt` among queued jobs —
claiming sets status `processing`, increments `attempts` by exactly one and
clears `lastError`; a successful run ends `completed` with `lastError` still
null; a failing run returns to `queued` with `lastError` set to the failure
message while the post-increment attempts are below 3, and ends `failed` once
they reach 3; rows other than the claimed one are untouched.  Concretely, a
job failing 3 consecutive times ends `failed` with `attempts = 3` and the
last failure message, and one failing twice then succeeding ends `completed`
with `attempts = 3` and `lastError = null`. -/
theorem processNextJob_state_machine (jobs : List Job) (j : Job)
    (hsel : selectNextQueued jobs = some j) :
    (j ∈ jobs ∧ j.status = .queued
      ∧ ∀ k ∈ jobs, k.status = .queued → j.createdAt ≤ k.createdAt)
    ∧ claimJob j
        = { j with status := .processing, attempts := j.attempts + 1, lastError := none }
    ∧ runClaimedJob j (.ok ())
        = { j with status := .completed, attempts := j.attempts + 1, lastError := none }
    ∧ (∀ msg : String, j.kind = "refreshRepo" → j.attempts + 1 < 3 →
        runClaimedJob j (.error msg)
          = { j with status := .queued, attempts := j.attempts + 1, lastError := some msg })
    ∧ (∀ msg : String, j.kind = "refreshRepo" → 3 ≤ j.attempts + 1 →
        runClaimedJob j (.error msg)
          = { j with status := .failed, attempts := j.attempts + 1, lastError := some msg })
    ∧ (∀ handler : Job → Except String Unit, ∀ x ∈ jobs, x.id ≠ j.id →
        x ∈ processNextJob handler jobs)
    ∧ (∀ m1 m2 m3 : String,
        processNextJob (fun _ => .error m3) (processNextJob (fun _ => .error m2)
          (processNextJob (fun _ => .error m1)
            [⟨1, "refreshRepo", some 5, .queued, 0, none, 0⟩]))
        = [⟨1, "refreshRepo", some 5, .failed, 3, some m3, 0⟩])
    ∧ (∀ m1 m2 : String,
        processNextJob (fun _ => .ok ()) (processNextJob (fun _ => .error m2)
          (processNextJob (fun _ => .error m1)
            [⟨1, "refreshRepo", some 5, .queued, 0, none, 0⟩]))
        = [⟨1, "refreshRepo", some 5, .completed, 3, none, 0⟩]) := by
  refine ⟨selectNextQueued_sound jobs j hsel, rfl, ?_, ?_, ?_, ?_, ?_, ?_⟩
  · simp only [runClaimedJob, claimJob, ite_self]
  · intro msg hkind hlt
    simp only [runClaimedJob, claimJob]
    rw [if_pos hkind, if_neg (by omega : ¬ j.attempts + 1 ≥ 3)]
  · intro msg hkind hge
    simp only [runClaimedJob, claimJob]
    rw [if_pos hkind, if_pos (by omega : j.attempts + 1 ≥ 3)]
  · intro handler x hx hne
    simp only [processNextJob, hsel]
    have hmem := List.mem_map_of_mem
      (fun x => if x.id = j.id then runClaimedJob j (handler j) else x) hx
    simp only [if_neg hne] at hmem
    exact hmem
  · intro m1 m2 m3
    simp [processNextJob, selectNextQueued, runClaimedJob, claimJob]
  · intro m1 m2
    simp [processNextJob, selectNextQueued, runClaimedJob, claimJob]

/-- Witness for `processNextJob_state_machine`, on the one-job table
`[⟨1, "refreshRepo", some 5, queued, 0, null, 0⟩]`. -/
theorem processNextJob_state_machine_witness :
    (⟨1, "refreshRepo", some 5, .queued, 0, none, 0⟩ : Job).status = JobStatus.queued
    ∧ processNextJob (fun _ => .error "e3") (processNextJob (fun _ => .error "e2")
        (processNextJob (fun _ => .error "e1")
          [⟨1, "refreshRepo", some 5, .queued, 0, none, 0⟩]))
      = [⟨1, "refreshRepo", some 5, .failed, 3, some "e3", 0⟩] :=
  have h := processNextJob_state_machine
    [⟨1, "refreshRepo", some 5, .queued, 0, none, 0⟩]
    ⟨1, "refreshRepo", some 5, .queued, 0, none, 0⟩ rfl
  ⟨h.1.2.1, h.2.2.2.2.2.2.1 "e1" "e2" "e3"⟩

/-- C10: a queued job whose `kind` is not `"refreshRepo"` is claimed like any
other, but the dispatch only logs a warning: the cycle's outcome is
independent of the refresh handler (so no external fetch and no repository or
activity write can occur), and the job transitions straight to `completed`
with `attempts` incremented and `lastError` null — an unrecognized kind is
silently marked successful rather than `failed`. -/
theorem processNextJob_unknown_kind (job : Job) (hkind : job.kind ≠ "refreshRepo") :
    (∀ h1 h2 : Except String Unit, runClaimedJob job h1 = runClaimedJob job h2)
    ∧ (∀ hd : Except String Unit, runClaimedJob job hd
        = { job with status := .completed, attempts := job.attempts + 1, lastError := none })
    ∧ (∀ (handler : Job → Except String Unit) (jobs : List Job),
        selectNextQueued jobs = some job →
        processNextJob handler jobs = jobs.map (fun x => if x.id = job.id
          then { job with status := .completed, attempts := job.attempts + 1, lastError := none }
          else x)) := by
  have hrun : ∀ hd : Except String Unit, runClaimedJob job hd
      = { job with status := .completed, attempts := job.attempts + 1, lastError := none } := by
    intro hd
    simp only [runClaimedJob, claimJob]
    rw [if_neg hkind]
  refine ⟨fun h1 h2 => (hrun h1).trans (hrun h2).symm, hrun, ?_⟩
  intro handler jobs hsel
  simp only [processNextJob, hsel, hrun]

/-- Witness for `processNextJob_unknown_kind`: a queued `"emailDigest"` job
whose handler would throw still completes. -/
theorem processNextJob_unknown_kind_witness :
    runClaimedJob ⟨2, "emailDigest", none, .queued, 0, none, 7⟩ (.error "boom")
      = { (⟨2, "emailDigest", none, .queued, 0, none, 7⟩ : Job) with
          status := .completed, attempts := 1, lastError := none } :=
  (processNextJob_unknown_kind ⟨2, "emailDigest", none, .queued, 0, none, 7⟩
    (by decide)).2.1 (.error "boom")

/-! ## Enqueue-if-absent (`POST /api/repos/:id/refresh`, `backend/src/routes/repos.js`) -/

/-- The duplicate check of the refresh endpoint: `fetchJob.findFirst` with
`kind = "refreshRepo"`, `status ∈ {queued, processing}`, and payload
`repoId` equal to the requested id. -/
def isNonTerminalRefreshJobFor (repoId : ℕ) (j : Job) : Bool :=
  j.kind = "refreshRepo" && (j.status = .queued || j.status = .processing)
    && j.payloadRepoId = some repoId

/-- The responses of the refresh endpoint that concern the job table. -/
inductive EnqueueOutcome
  | notFound
  | alreadyQueued
  | queuedNew
deriving DecidableEq, Repr

/-- `POST /api/repos/:id/refresh`: 404 when the repository row does not
exist; `"Refresh already queued"` with no insert when a non-terminal
(`queued`/`processing`) refresh job for the same `repoId` already exists;
otherwise `fetchJob.create` of one new `refreshRepo` job.

Modelled from the spec: the Prisma schema holding the `FetchJob` column
defaults is not among the sources — per the spec a newly created job starts
in status `queued` with `attempts = 0` and a null `lastError`; `newId` and
`now` stand for the auto-increment id and the `createdAt` default. -/
def enqueueRefresh (repos : List RepositoryRecord) (jobs : List Job) (repoId : ℕ)
    (newId : ℕ) (now : ℤ) : EnqueueOutcome × List Job :=
  match repos.find? (fun r => r.id = repoId) with
  | none => (.notFound, jobs)
  | some _ =>
    match jobs.find? (isNonTerminalRefreshJobFor repoId) with
    | some _ => (.alreadyQueued, jobs)
    | none =>
      (.queuedNew, jobs ++ [⟨newId, "refreshRepo", some repoId, .queued, 0, none, now⟩])

theorem isNonTerminalRefreshJobFor_iff (repoId : ℕ) (j : Job) :
    isNonTerminalRefreshJobFor repoId j = true
      ↔ j.kind = "refreshRepo" ∧ (j.status = .queued ∨ j.status = .processing)
          ∧ j.payloadRepoId = some repoId := by
  simp only [isNonTerminalRefreshJobFor, Bool.and_eq_true, Bool.or_eq_true,
    decide_eq_true_eq]
  tauto

/-- C6: for every repository id, the enqueue endpoint inserts a new queued
refresh job only when no `queued`/`processing` refresh job for that id
exists: when such a job exists the table comes back unchanged (no second
row — the call is idempotent from the caller's perspective), and when the
repository exists and every prior refresh job for the id is `completed` or
`failed`, exactly one new row is appended, in status `queued` with
`attempts = 0` and `lastError` null. -/
theorem enqueueRefresh_spec (repos : List RepositoryRecord) (jobs : List Job)
    (repoId newId : ℕ) (now : ℤ) :
    ((∃ j ∈ jobs, isNonTerminalRefreshJobFor repoId j = true) →
      (enqueueRefresh repos jobs repoId newId now).2 = jobs)
    ∧ ((∃ r ∈ repos, r.id = repoId) →
        (∀ j ∈ jobs, j.kind = "refreshRepo" → j.payloadRepoId = some repoId →
          j.status = .completed ∨ j.status = .failed) →
        enqueueRefresh repos jobs repoId newId now
          = (.queuedNew,
              jobs ++ [⟨newId, "refreshRepo", some repoId, .queued, 0, none, now⟩])) := by
  constructor
  · intro hex
    have hfind : (jobs.find? (isNonTerminalRefreshJobFor repoId)).isSome := by
      rw [List.find?_isSome]
      obtain ⟨j, hj, hp⟩ := hex
      exact ⟨j, hj, hp⟩
    rcases h1 : repos.find? (fun r => r.id = repoId) with _ | r
    · simp only [enqueueRefresh, h1]
    · rcases h2 : jobs.find? (isNonTerminalRefreshJobFor repoId) with _ | j0
      · rw [h2] at hfind
        cases hfind
      · simp only [enqueueRefresh, h1, h2]
  · intro hrepo hterminal
    have h1 : (repos.find? (fun r => r.id = repoId)).isSome := by
      rw [List.find?_isSome]
      obtain ⟨r, hr, hid⟩ := hrepo
      exact ⟨r, hr, by simp [hid]⟩
    have h2 : jobs.find? (isNonTerminalRefreshJobFor repoId) = none := by
      rw [List.find?_eq_none]
      intro j hj hp
      rw [isNonTerminalRefreshJobFor_iff] at hp
      obtain ⟨hk, hs, hpay⟩ := hp
      have hterm := hterminal j hj hk hpay
      rcases hs with hs | hs <;> rcases hterm with ht | ht <;> rw [hs] at ht <;> cases ht
    rcases h1' : repos.find? (fun r => r.id = repoId) with _ | r
    · rw [h1'] at h1
      cases h1
    · simp only [enqueueRefresh, h1', h2]

/-- Witness for `enqueueRefresh_spec`: a queued refresh job for repo 7 blocks
a second insert, while a failed one does not block a fresh enqueue. -/
theorem enqueueRefresh_spec_witness :
    (enqueueRefresh [mkRepoRow 7 none]
      [⟨1, "refreshRepo", some 7, .queued, 0, none, 0⟩] 7 9 4).2
      = [⟨1, "refreshRepo", some 7, .queued, 0, none, 0⟩]
    ∧ enqueueRefresh [mkRepoRow 7 none]
        [⟨1, "refreshRepo", some 7, .failed, 3, some "boom", 0⟩] 7 9 4
      = (.queuedNew, [⟨1, "refreshRepo", some 7, .failed, 3, some "boom", 0⟩,
          ⟨9, "refreshRepo", some 7, .queued, 0, none, 4⟩]) :=
  ⟨(enqueueRefresh_spec [mkRepoRow 7 none]
      [⟨1, "refreshRepo", some 7, .queued, 0, none, 0⟩] 7 9 4).1 (by decide),
   (enqueueRefresh_spec [mkRepoRow 7 none]
      [⟨1, "refreshRepo", some 7, .failed, 3, some "boom", 0⟩] 7 9 4).2
      (by decide) (by decide)⟩

/-! ## External-source retry wrapper (`withRetry` in `backend/src/services/githubService.js`) -/

/-- An error surfaced by a request: the HTTP response status (absent for
network-level failures) and the parsed `Retry-After` header (absent when the
header is missing or does not parse to a number). -/
structure GhError where
  status : Option ℕ
  retryAfter : Option ℕ
deriving DecidableEq, Repr

/-- `Number.parseInt(error.response.headers["retry-after"] ?? "0", 10) || attempt * 3`:
the header's value when present and nonzero, else the escalating fallback of
`attempt * 3` seconds. -/
def retryDelaySeconds (attempt : ℕ) (retryAfter : Option ℕ) : ℕ :=
  match retryAfter with
  | some n => if n = 0 then attempt * 3 else n
  | none => attempt * 3

/-- The observable trace of one `withRetry(requestFn, attempt)` call: its
final result, the total number of `requestFn` invocations it performed, and
the seconds it slept before each retry. -/
structure RetryTrace (α : Type) where
  result : Except GhError α
  calls : ℕ
  waits : List ℕ
deriving Repr

/-- `withRetry(requestFn, attempt)` from `githubService.js`: run the
request; on an error whose status is 403 with `attempt <= 3`, sleep the
retry delay and recurse at `attempt + 1`; rethrow any other error at once.
`req a` is the outcome of the `a`-th invocation of `requestFn`. -/
def withRetry {α : Type} (req : ℕ → Except GhError α) (attempt : ℕ) : RetryTrace α :=
  match req attempt with
  | .ok v => ⟨.ok v, 1, []⟩
  | .error e =>
    if h : e.status = some 403 ∧ attempt ≤ 3 then
      let rest := withRetry req (attempt + 1)
      ⟨rest.result, rest.calls + 1, retryDelaySeconds attempt e.retryAfter :: rest.waits⟩
    else
      ⟨.error e, 1, []⟩
termination_by 4 - attempt
decreasing_by exact Nat.sub_succ_lt_self 4 attempt (Nat.lt_succ_of_le h.2)

theorem withRetry_calls_le_aux {α : Type} (req : ℕ → Except GhError α) :
    ∀ n attempt, 4 - attempt ≤ n → (withRetry req attempt).calls ≤ n + 1 := by
  intro n
  induction n with
  | zero =>
    intro attempt hle
    rw [withRetry.eq_def]
    rcases hr : req attempt with e | v
    · simp only [hr]
      rw [dif_neg (fun hc : e.status = some 403 ∧ attempt ≤ 3 => absurd hc.2 (by omega))]
    · simp only [hr]
      omega
  | succ n ih =>
    intro attempt hle
    rw [withRetry.eq_def]
    rcases hr : req attempt with e | v
    · simp only [hr]
      by_cases hc : e.status = some 403 ∧ attempt ≤ 3
      · rw [dif_pos hc]
        have hrec := ih (attempt + 1) (by omega)
        show (withRetry req (attempt + 1)).calls + 1 ≤ n + 1 + 1
        omega
      · rw [dif_neg hc]
        show 1 ≤ n + 1 + 1
        omega
    · simp only [hr]
      show 1 ≤ n + 1 + 1
      omega

theorem withRetry_rate_limited {α : Type} (req : ℕ → Except GhError α) (e : GhError)
    (hreq : ∀ a, req a = .error e) (hst : e.status = some 403) :
    withRetry req 1 = ⟨.error e, 4,
      [retryDelaySeconds 1 e.retryAfter, retryDelaySeconds 2 e.retryAfter,
       retryDelaySeconds 3 e.retryAfter]⟩ := by
  have h4 : withRetry req 4 = ⟨.error e, 1, []⟩ := by
    rw [withRetry.eq_def]
    simp only [hreq 4]
    rw [dif_neg (fun hc : e.status = some 403 ∧ 4 ≤ 3 => absurd hc.2 (by omega))]
  have h3 : withRetry req 3 = ⟨.error e, 2, [retryDelaySeconds 3 e.retryAfter]⟩ := by
    rw [withRetry.eq_def]
    simp only [hreq 3]
    rw [dif_pos ⟨hst, by omega⟩, h4]
  have h2 : withRetry req 2 = ⟨.error e, 3,
      [retryDelaySeconds 2 e.retryAfter, retryDelaySeconds 3 e.retryAfter]⟩ := by
    rw [withRetry.eq_def]
    simp only [hreq 2]
    rw [dif_pos ⟨hst, by omega⟩, h3]
  rw [withRetry.eq_def]
  simp only [hreq 1]
  rw [dif_pos ⟨hst, by omega⟩, h2]

/-- C5 (counterexample): a request function that is rate limited (status
403) on every attempt is invoked 4 times in total by `withRetry` — the
initial attempt plus 3 retries — refuting "at most 3 request attempts in
total". -/
theorem withRetry_attempts_counterexample :
    ¬ ((withRetry (fun _ => (Except.error ⟨some 403, none⟩ : Except GhError Unit)) 1).calls
        ≤ 3) := by
  rw [withRetry_rate_limited (fun _ => (Except.error ⟨some 403, none⟩ : Except GhError Unit))
    ⟨some 403, none⟩ (fun _ => rfl) rfl]
  decide

/-- C5 (amended): on a rate-limit (403) response the retry wrapper waits —
the server-supplied Retry-After delay when present and nonzero, else the
escalating fallback of attempt×3 seconds (3 s, 6 s, 9 s) — and retries,
making at most 4 request attempts in total (the initial attempt plus up to 3
retries) before surfacing the terminal error to the caller; an error with
any other status is surfaced immediately, with one attempt made and no
wait. -/
theorem withRetry_spec (req : ℕ → Except GhError Unit) (e : GhError)
    (hreq : ∀ a, req a = .error e) (hst : e.status = some 403) :
    withRetry req 1 = ⟨.error e, 4,
      [retryDelaySeconds 1 e.retryAfter, retryDelaySeconds 2 e.retryAfter,
       retryDelaySeconds 3 e.retryAfter]⟩
    ∧ (∀ req' : ℕ → Except GhError Unit, (withRetry req' 1).calls ≤ 4)
    ∧ (∀ (req' : ℕ → Except GhError Unit) (e' : GhError), req' 1 = .error e' →
        ¬ e'.status = some 403 → withRetry req' 1 = ⟨.error e', 1, []⟩)
    ∧ (∀ (a n : ℕ), retryDelaySeconds a (some (n + 1)) = n + 1)
    ∧ (∀ a : ℕ, retryDelaySeconds a none = a * 3) := by
  refine ⟨withRetry_rate_limited req e hreq hst, ?_, ?_, fun a n => rfl, fun a => rfl⟩
  · intro req'
    exact withRetry_calls_le_aux req' 3 1 (by omega)
  · intro req' e' hr hst'
    rw [withRetry.eq_def]
    simp only [hr]
    rw [dif_neg (fun hc : e'.status = some 403 ∧ 1 ≤ 3 => absurd hc.1 hst')]

/-- Witness for `withRetry_spec`: a permanently rate-limited request without
a Retry-After header is attempted 4 times with fallback waits 3 s, 6 s,
9 s. -/
theorem withRetry_spec_witness :
    withRetry (fun _ => (Except.error ⟨some 403, none⟩ : Except GhError Unit)) 1
      = ⟨.error ⟨some 403, none⟩, 4, [3, 6, 9]⟩ :=
  (withRetry_spec (fun _ => (Except.error ⟨some 403, none⟩ : Except GhError Unit))
    ⟨some 403, none⟩ (fun _ => rfl) rfl).1

/-! ## Refresh handler (`handleRefreshRepo` in `backend/src/jobs/jobWorker.js`) -/

/-- The repository-metadata payload returned by `fetchRepository`, which is
also the shape of `updatedRepoData`. -/
structure RepoData where
  description : Option String
  stars : ℕ
  forks : ℕ
  openIssues : ℕ
  defaultBranch : String
  lastCommitAt : Option ℤ
  hasGoodFirstIssues : Bool
deriving DecidableEq, Repr

/-- The result of `fetchRepository(fullName, { etag })`: a possibly new etag,
and `data = null` exactly on a 304 Not Modified response. -/
structure FetchRepoResult where
  etag : Option String
  data : Option RepoData
deriving DecidableEq, Repr

/-- A `RepoActivity` row: one 30-day observation window of a repository. -/
structure ActivityRow where
  id : ℕ
  repoId : ℕ
  windowStart : ℤ
  windowEnd : ℤ
  prsMerged : ℕ
  prsOpened : ℕ
  issuesOpened : ℕ
  issuesComment : ℕ
  meanMergeDays : ℚ
deriving DecidableEq, Repr

/-- The shared persistent store: the `Repository` and `RepoActivity` tables. -/
structure Store where
  repos : List RepositoryRecord
  activities : List ActivityRow
deriving DecidableEq, Repr

/-- Step 5 of the handler: `repoActivity.findFirst` on `(repoId, windowStart,
windowEnd)`; update the counters of the found row in place, else
`repoActivity.create` a new row (`newId` standing for the auto-increment
id). -/
def upsertActivity (activities : List ActivityRow) (repoId : ℕ) (s : ActivitySummary)
    (newId : ℕ) : List ActivityRow :=
  match activities.find? (fun a =>
      a.repoId = repoId && a.windowStart = s.windowStart && a.windowEnd = s.windowEnd) with
  | none =>
    activities ++ [⟨newId, repoId, s.windowStart, s.windowEnd, s.prsMerged, s.prsOpened,
      s.issuesOpened, s.issuesComment, s.meanMergeDays⟩]
  | some ex =>
    activities.map (fun a => if a.id = ex.id then
      { a with
          prsMerged := s.prsMerged, prsOpened := s.prsOpened,
          issuesOpened := s.issuesOpened, issuesComment := s.issuesComment,
          meanMergeDays := s.meanMergeDays }
      else a)

/-- `handleRefreshRepo(job)` from `jobWorker.js`: reject a missing (or, by
JavaScript truthiness, zero) `payload.repoId`; load the repository, throwing
when it no longer exists; fetch metadata conditionally on the stored etag;
always fetch the 30-day activity window; summarize it; fall back to the
cached metadata fields on a 304; recompute the health score; and commit the
repository update and the `RepoActivity` upsert together as the single
`prisma.$transaction` of the source — modelled as one atomic transition
producing the whole new store.  Every `throw` surfaces as `Except.error`,
leaving the store untouched (there is no partially applied result).  The two
external fetches are `Except`-valued parameters, covering every outcome the
GitHub client can surface after its own internal retries. -/
noncomputable def handleRefreshRepo (store : Store) (payloadRepoId : Option ℕ)
    (fetchResult : Except String FetchRepoResult)
    (activityResult : Except String (List Pull × List Issue))
    (now : ℤ) (newActivityId : ℕ) : Except String Store :=
  match payloadRepoId with
  | none => .error "Job payload missing repoId"
  | some repoId =>
    if repoId = 0 then .error "Job payload missing repoId"
    else
      match store.repos.find? (fun r => r.id = repoId) with
      | none => .error "Repository not found"
      | some repository =>
        match fetchResult with
        | .error e => .error e
        | .ok fr =>
          match activityResult with
          | .error e => .error e
          | .ok (pulls, issues) =>
            let activitySummary := summarizeActivity pulls issues now
            let updatedRepoData : RepoData := fr.data.getD
              ⟨repository.description, repository.stars, repository.forks,
               repository.openIssues, repository.defaultBranch, repository.lastCommitAt,
               repository.hasGoodFirstIssues⟩
            let healthScore := computeHealthScore
              (some ⟨some updatedRepoData.stars, some updatedRepoData.openIssues,
                updatedRepoData.lastCommitAt⟩)
              (some activitySummary) now
            let newRepos := store.repos.map (fun r => if r.id = repoId then
              { r with
                  description := updatedRepoData.description,
                  stars := updatedRepoData.stars, forks := updatedRepoData.forks,
                  openIssues := updatedRepoData.openIssues,
                  defaultBranch := updatedRepoData.defaultBranch,
                  lastCommitAt := updatedRepoData.lastCommitAt,
                  hasGoodFirstIssues := updatedRepoData.hasGoodFirstIssues,
                  etag := fr.etag.or repository.etag,
                  healthScore := healthScore,
                  healthRefreshedAt := some now }
              else r)
            let newActivities := upsertActivity store.activities repoId activitySummary
              newActivityId
            .ok ⟨newRepos, newActivities⟩

/-- Stated from the spec's words: some repository row carries the freshly
recomputed health score with `healthRefreshedAt` set to the refresh
instant. -/
def recordUpdated (s' : Store) (repoId : ℕ) (hs : ℤ) (now : ℤ) : Prop :=
  ∃ r ∈ s'.repos, r.id = repoId ∧ r.healthScore = hs ∧ r.healthRefreshedAt = some now

/-- Stated from the spec's words: some `RepoActivity` row of the repository
carries exactly the fresh window summary. -/
def activityUpserted (s' : Store) (repoId : ℕ) (a : ActivitySummary) : Prop :=
  ∃ row ∈ s'.activities, row.repoId = repoId ∧ row.windowStart = a.windowStart
    ∧ row.windowEnd = a.windowEnd ∧ row.prsMerged = a.prsMerged
    ∧ row.prsOpened = a.prsOpened ∧ row.issuesOpened = a.issuesOpened
    ∧ row.issuesComment = a.issuesComment ∧ row.meanMergeDays = a.meanMergeDays

theorem upsertActivity_mem (activities : List ActivityRow) (repoId : ℕ)
    (s : ActivitySummary) (newId : ℕ) :
    ∃ row ∈ upsertActivity activities repoId s newId, row.repoId = repoId
      ∧ row.windowStart = s.windowStart ∧ row.windowEnd = s.windowEnd
      ∧ row.prsMerged = s.prsMerged ∧ row.prsOpened = s.prsOpened
      ∧ row.issuesOpened = s.issuesOpened ∧ row.issuesComment = s.issuesComment
      ∧ row.meanMergeDays = s.meanMergeDays := by
  rw [upsertActivity]
  rcases hf : activities.find? (fun a =>
      a.repoId = repoId && a.windowStart = s.windowStart && a.windowEnd = s.windowEnd)
    with _ | ex
  · simp only [hf]
    refine ⟨⟨newId, repoId, s.windowStart, s.windowEnd, s.prsMerged, s.prsOpened,
      s.issuesOpened, s.issuesComment, s.meanMergeDays⟩, ?_, rfl, rfl, rfl, rfl, rfl,
      rfl, rfl, rfl⟩
    exact List.mem_append_right activities (List.mem_singleton.mpr rfl)
  · simp only [hf]
    have hex := List.find?_some hf
    simp only [Bool.and_eq_true, decide_eq_true_eq] at hex
    obtain ⟨⟨hrep, hws⟩, hwe⟩ := hex
    have hmem := List.mem_of_find?_eq_some hf
    refine ⟨{ ex with
        prsMerged := s.prsMerged, prsOpened := s.prsOpened,
        issuesOpened := s.issuesOpened, issuesComment := s.issuesComment,
        meanMergeDays := s.meanMergeDays },
      ?_, hrep, hws, hwe, rfl, rfl, rfl, rfl, rfl⟩
    have hfx : (fun a => if a.id = ex.id then
        ({ a with
            prsMerged := s.prsMerged, prsOpened := s.prsOpened,
            issuesOpened := s.issuesOpened, issuesComment := s.issuesComment,
            meanMergeDays := s.meanMergeDays } : ActivityRow)
        else a) ex
        = { ex with
            prsMerged := s.prsMerged, prsOpened := s.prsOpened,
            issuesOpened := s.issuesOpened, issuesComment := s.issuesComment,
            meanMergeDays := s.meanMergeDays } := by
      simp
    have hmap := List.mem_map_of_mem (fun a => if a.id = ex.id then
      { a with
          prsMerged := s.prsMerged, prsOpened := s.prsOpened,
          issuesOpened := s.issuesOpened, issuesComment := s.issuesComment,
          meanMergeDays := s.meanMergeDays }
      else a) hmem
    rw [hfx] at hmap
    exact hmap

theorem updatedRepo_mem (repos : List RepositoryRecord) (repoId : ℕ)
    (repository : RepositoryRecord) (hmem : repository ∈ repos)
    (hid : repository.id = repoId) (d : RepoData) (etag : Option String)
    (hs : ℤ) (now : ℤ) :
    ∃ r ∈ repos.map (fun r => if r.id = repoId then
        { r with
            description := d.description,
            stars := d.stars, forks := d.forks,
            openIssues := d.openIssues,
            defaultBranch := d.defaultBranch,
            lastCommitAt := d.lastCommitAt,
            hasGoodFirstIssues := d.hasGoodFirstIssues,
            etag := etag,
            healthScore := hs,
            healthRefreshedAt := some now }
        else r),
      r.id = repoId ∧ r.healthScore = hs ∧ r.healthRefreshedAt = some now := by
  have hmap := List.mem_map_of_mem (fun r => if r.id = repoId then
      { r with
          description := d.description,
          stars := d.stars, forks := d.forks,
          openIssues := d.openIssues,
          defaultBranch := d.defaultBranch,
          lastCommitAt := d.lastCommitAt,
          hasGoodFirstIssues := d.hasGoodFirstIssues,
          etag := etag,
          healthScore := hs,
          healthRefreshedAt := some now }
      else r) hmem
  have hfx : (fun r => if r.id = repoId then
      ({ r with
          description := d.description,
          stars := d.stars, forks := d.forks,
          openIssues := d.openIssues,
          defaultBranch := d.defaultBranch,
          lastCommitAt := d.lastCommitAt,
          hasGoodFirstIssues := d.hasGoodFirstIssues,
          etag := etag,
          healthScore := hs,
          healthRefreshedAt := some now } : RepositoryRecord)
      else r) repository
      = { repository with
          description := d.description,
          stars := d.stars, forks := d.forks,
          openIssues := d.openIssues,
          defaultBranch := d.defaultBranch,
          lastCommitAt := d.lastCommitAt,
          hasGoodFirstIssues := d.hasGoodFirstIssues,
          etag := etag,
          healthScore := hs,
          healthRefreshedAt := some now } := by
    simp [hid]
  rw [hfx] at hmap
  exact ⟨_, hmap, hid, rfl, rfl⟩

/-- C2: the step-6 record update and the step-5 activity upsert commit as
one atomic transaction.  In the model the `prisma.$transaction` is a single
transition: a failing run returns `Except.error` and produces no store at
all (a record-updated-but-no-activity state, or the converse, is not even
expressible as an outcome), and every successful run returns a store in
which BOTH the repository row carries the recomputed health score with
`healthRefreshedAt = now` AND the matching ActivityWindow row carries the
fresh 30-day summary, with the repository table's row count unchanged. -/
theorem handleRefreshRepo_atomic (store : Store) (payloadRepoId : Option ℕ)
    (fetchResult : Except String FetchRepoResult)
    (activityResult : Except String (List Pull × List Issue))
    (now : ℤ) (newActivityId : ℕ) :
    match handleRefreshRepo store payloadRepoId fetchResult activityResult now
        newActivityId with
    | .error _ => True
    | .ok s' =>
      ∃ repoId pulls issues, payloadRepoId = some repoId
        ∧ activityResult = .ok (pulls, issues)
        ∧ (∃ hs, recordUpdated s' repoId hs now)
        ∧ activityUpserted s' repoId (summarizeActivity pulls issues now)
        ∧ s'.repos.length = store.repos.length := by
  rcases payloadRepoId with _ | repoId
  · exact True.intro
  · by_cases h0 : repoId = 0
    · simp only [handleRefreshRepo, if_pos h0]
    · simp only [handleRefreshRepo, if_neg h0]
      rcases hfind : store.repos.find? (fun r => r.id = repoId) with _ | repository
      · simp only [hfind]
      · simp only [hfind]
        rcases fetchResult with e | fr
        · exact True.intro
        · rcases activityResult with e | pi
          · exact True.intro
          · rcases pi with ⟨pulls, issues⟩
            have hpred := List.find?_some hfind
            have hid : repository.id = repoId := by
              simpa using hpred
            have hmem := List.mem_of_find?_eq_some hfind
            refine ⟨repoId, pulls, issues, rfl, rfl, ?_, ?_, ?_⟩
            · exact ⟨_, updatedRepo_mem store.repos repoId repository hmem hid _ _ _ now⟩
            · exact upsertActivity_mem store.activities repoId
                (summarizeActivity pulls issues now) newActivityId
            · exact List.length_map store.repos _
